import Mathlib

/-! The operand codec of fdb-go.

A shallow embedding of `generateOperand`, `parseOperand`, `Write` and `Read`
from `fdb.go`, and theorems about the wire format they produce and consume.

* Bytes are natural numbers (`Byte`); every byte the encoder itself emits
  (delimiters, key bytes) is below 256.
* A Go `string` is its byte sequence (`GoString`): `WriteString` and
  `string(bytes)` copy bytes without any re-encoding.
* A Go slice is a `List`; a nil slice and an empty slice are both `[]`.
* The two libraries `fdb.go` imports, `xxhash` and `msgpack`, are not part of
  the repository.  They enter as the fields of `Lib`, over which every
  definition and theorem is parametric.  The connection `net.Conn` enters the
  same way, as the fields of `Conn`.
-/

namespace Fdb

/-- One octet of a buffer. -/
abbrev Byte := Nat

/-- A Go `string`, seen as the sequence of its bytes. -/
abbrev GoString := List Byte

/-- The imported library functions used by `fdb.go`, for a metadata type `M`
(Go's `map[string]string`).

* `Sum64String` is `xxhash.Sum64String`; its `uint64` result is taken modulo
  `2 ^ 64` where it is used.
* `Marshal` is `msgpack.Marshal` at `map[string]string`.  The bytes it yields
  for a Go map depend on the order in which the map is iterated; a `Lib` fixes
  the bytes one call yields.
* `Unmarshal` is `msgpack.Unmarshal` into a `*map[string]string`.

Library errors are carried as their message. -/
structure Lib (M : Type) where
  Sum64String : GoString → Nat
  Marshal : M → Except String (List Byte)
  Unmarshal : List Byte → Except String M

/-- The errors `generateOperand` and `parseOperand` build with `fmt.Errorf`,
one constructor per call site, in source order. -/
inductive OperandError where
  /-- The text `error packing metadata: %w` (line 47). -/
  | packingMetadata (cause : String)
  /-- The text `error reading key: %w` (line 70); the cause is `io.EOF`. -/
  | readingKey
  /-- The text `expected End of Transaction Block after key` (line 76). -/
  | expectedETBAfterKey
  /-- The text `expected Start of Text for URL` (line 82). -/
  | expectedSTXForURL
  /-- The text `expected Start of Text for metadata` (line 97). -/
  | expectedSTXForMetadata
  /-- The text `error unpacking metadata: %w` (line 112). -/
  | unpackingMetadata (cause : String)
  /-- The text `expected End of Transaction Block after metadata` (line 118). -/
  | expectedETBAfterMetadata
  deriving DecidableEq, Repr

/-- The little-endian bytes `binary.LittleEndian.PutUint64` stores for a
`uint64` value: byte `i` is `byte(v >> (8 * i))`. -/
def PutUint64 (v : Nat) : List Byte :=
  [v % 256, v / 2 ^ 8 % 256, v / 2 ^ 16 % 256, v / 2 ^ 24 % 256,
   v / 2 ^ 32 % 256, v / 2 ^ 40 % 256, v / 2 ^ 48 % 256, v / 2 ^ 56 % 256]

/-- The loop `for _, token := range tokens` of `generateOperand` (lines 54-57):
each token's bytes followed by the byte 3, appended to the buffer. -/
def writeTokens (operandBuffer : List Byte) : List GoString → List Byte
  | [] => operandBuffer
  | token :: tokens => writeTokens (operandBuffer ++ token ++ [3]) tokens

/-- The function `generateOperand` of `fdb.go` (lines 26-61).  The buffer is
built by the same sequence of writes; the result of `msgpack.Marshal` decides
between the error return and the rest of the writes. -/
def generateOperand {M : Type} (lib : Lib M) (url : GoString) (tokens : List GoString)
    (metadatas : M) : Except OperandError (List Byte) :=
  let key := PutUint64 (lib.Sum64String url % 2 ^ 64)
  let operandBuffer : List Byte := []
  let operandBuffer := operandBuffer ++ key
  let operandBuffer := operandBuffer ++ [23]
  let operandBuffer := operandBuffer ++ [2]
  let operandBuffer := operandBuffer ++ url
  let operandBuffer := operandBuffer ++ [3]
  let operandBuffer := operandBuffer ++ [2]
  match lib.Marshal metadatas with
  | .error err => .error (.packingMetadata err)
  | .ok packedMetadata =>
    let operandBuffer := operandBuffer ++ packedMetadata
    let operandBuffer := operandBuffer ++ [3]
    let operandBuffer := operandBuffer ++ [23]
    let operandBuffer := writeTokens operandBuffer tokens
    let operandBuffer := operandBuffer ++ [23]
    .ok operandBuffer

/-- The method `(*bytes.Buffer).Read` for a destination of `n > 0` bytes: on
an empty buffer it reports `io.EOF` (`none`); otherwise it copies as many
bytes as are there, at most `n`, and reports no error, also when fewer than
`n` were copied.  The result is the bytes copied and the buffer left. -/
def bufferRead (n : Nat) (buf : List Byte) : Option (List Byte × List Byte) :=
  match buf with
  | [] => none
  | _ :: _ => some (buf.take n, buf.drop n)

/-- The method `(*bytes.Buffer).ReadByte`: `io.EOF` (`none`) on an empty
buffer, otherwise the next byte and the buffer left. -/
def readByte (buf : List Byte) : Option (Byte × List Byte) :=
  match buf with
  | [] => none
  | b :: rest => some (b, rest)

/-- The two scanning loops of `parseOperand` (lines 85-91 and 100-106): read
bytes, appending them to the field, until `ReadByte` fails or the byte is 3.
The result is the field and the buffer left (the 3 is consumed). -/
def readField (field : List Byte) : List Byte → List Byte × List Byte
  | [] => (field, [])
  | b :: rest => if b = 3 then (field, rest) else readField (field ++ [b]) rest

mutual
/-- The outer loop of the token extraction of `parseOperand` (lines 123-143),
entered at `b, err = operandBuffer.ReadByte()` (line 124): the end of the
buffer and the byte 23 both return the tokens collected.  Any other byte
enters the inner loop, whose first test (line 136) is on this same byte: a 3
closes the token at once, empty; another byte is appended (line 139) and the
inner loop goes on in `readTokenBytes`. -/
def readTokens (tokens : List GoString) (operandBuffer : List Byte) : List GoString :=
  match operandBuffer with
  | [] => tokens
  | b :: rest =>
    if b = 23 then tokens
    else if b = 3 then readTokens (tokens ++ [[]]) rest
    else readTokenBytes tokens [b] rest
termination_by structural operandBuffer
/-- The inner loop (lines 135-141) from its `ReadByte` (line 140) on, a byte
having been appended to `tokenBytes`: a 3 closes the token (line 142) and the
outer loop goes on; another byte is appended.  At the end of the buffer the
read fails, the token is closed, and the outer loop's own read fails in turn
and returns the tokens. -/
def readTokenBytes (tokens : List GoString) (tokenBytes : List Byte)
    (operandBuffer : List Byte) : List GoString :=
  match operandBuffer with
  | [] => tokens ++ [tokenBytes]
  | b :: rest =>
    if b = 3 then readTokens (tokens ++ [tokenBytes]) rest
    else readTokenBytes tokens (tokenBytes ++ [b]) rest
termination_by structural operandBuffer
end

/-- The function `parseOperand` of `fdb.go` (lines 63-144).  The Go function
returns `("", nil, nil, err)` on failure and `(url, metadata, tokens, nil)` on
success; here failure is `.error err` and success `.ok (url, metadata, tokens)`.
The branch of line 129 is absent: `ReadByte` of a `bytes.Buffer` fails with
`io.EOF` only. -/
def parseOperand {M : Type} (lib : Lib M) (operand : List Byte) :
    Except OperandError (GoString × M × List GoString) :=
  match bufferRead 8 operand with
  | none => .error .readingKey
  | some (_key, operandBuffer) =>
    match readByte operandBuffer with
    | none => .error .expectedETBAfterKey
    | some (b, operandBuffer) =>
      if b ≠ 23 then .error .expectedETBAfterKey
      else
        match readByte operandBuffer with
        | none => .error .expectedSTXForURL
        | some (b, operandBuffer) =>
          if b ≠ 2 then .error .expectedSTXForURL
          else
            let (urlBytes, operandBuffer) := readField [] operandBuffer
            let url := urlBytes
            match readByte operandBuffer with
            | none => .error .expectedSTXForMetadata
            | some (b, operandBuffer) =>
              if b ≠ 2 then .error .expectedSTXForMetadata
              else
                let (packedMetadata, operandBuffer) := readField [] operandBuffer
                match lib.Unmarshal packedMetadata with
                | .error err => .error (.unpackingMetadata err)
                | .ok metadata =>
                  match readByte operandBuffer with
                  | none => .error .expectedETBAfterMetadata
                  | some (b, operandBuffer) =>
                    if b ≠ 23 then .error .expectedETBAfterMetadata
                    else .ok (url, metadata, readTokens [] operandBuffer)

/-- The first value a call of `generateOperand` returns in Go: the buffer's
bytes next to a nil error, and the nil slice next to an error (line 47). -/
def returnedBytes : Except OperandError (List Byte) → List Byte
  | .ok operandBytes => operandBytes
  | .error _ => []

/-! ## The transport

`Write` and `Read` of `fdb.go` call the package variable `conn`, a `net.Conn`
opened by `Connect`.  The connection is carried as an explicit state `σ`; its
two methods are the fields of `Conn`.  A call made before a successful
`Connect` finds `conn` nil and panics; such calls are not part of the model.
-/

/-- The two methods of `net.Conn` that `fdb.go` calls, over a connection state
`σ`.

* `Write conn p` is `conn.Write(p)`: the state after the call, the count `n`
  and the error (`none` for nil).
* `Read conn size` is `conn.Read(p)` for a destination `p` of `size` bytes: the
  state after the call, the bytes stored in `p[:n]`, and the error.
* `Read_le` is the contract of `io.Reader`, `0 <= n <= len(p)`. -/
structure Conn (σ : Type) where
  Write : σ → List Byte → σ × Nat × Option String
  Read : σ → Nat → σ × List Byte × Option String
  Read_le : ∀ (conn : σ) (size : Nat), (Read conn size).2.1.length ≤ size

/-- The Go `error` value `Write` returns: the one `generateOperand` built, or
the one `conn.Write` reported. -/
inductive WriteError where
  /-- An error returned by `generateOperand` (line 150). -/
  | operand (err : OperandError)
  /-- An error returned by `conn.Write` (line 153). -/
  | conn (err : String)
  deriving DecidableEq, Repr

/-- The function `Write` of `fdb.go` (lines 147-154).  The result is the state
of the connection after the call and the error returned (`none` for nil). -/
def Write {σ M : Type} (net : Conn σ) (lib : Lib M) (conn : σ) (url : GoString)
    (tokens : List GoString) (metadatas : M) : σ × Option WriteError :=
  match generateOperand lib url tokens metadatas with
  | .error err => (conn, some (.operand err))
  | .ok operandBytes =>
    match net.Write conn operandBytes with
    | (conn, _, err) => (conn, err.map WriteError.conn)

/-- The function `Read` of `fdb.go` (lines 157-172).  The result is the state
of the connection after the call and, for the pair `(response, err)`, either
the error or the response `buffer[:n]`. -/
def Read {σ : Type} (net : Conn σ) (conn : σ) (token : GoString) :
    σ × Except String (List Byte) :=
  let byteobj : List Byte := [10]
  let byteobj := byteobj ++ token
  match net.Write conn byteobj with
  | (conn, _, some err) => (conn, .error err)
  | (conn, _, none) =>
    match net.Read conn 100 with
    | (conn, _, some err) => (conn, .error err)
    | (conn, response, none) => (conn, .ok response)

/-- A call made on the connection. -/
inductive ConnCall where
  /-- The call `conn.Write(p)`. -/
  | write (p : List Byte)
  /-- The call `conn.Read(p)` with `len(p) = size`. -/
  | read (size : Nat)
  deriving DecidableEq, Repr

/-- Any connection, observed: the state is paired with the list of the calls
made so far, oldest first; the results of the calls are unchanged. -/
def recording {σ : Type} (net : Conn σ) : Conn (σ × List ConnCall) where
  Write := fun conn p =>
    match net.Write conn.1 p with
    | (inner, n, err) => ((inner, conn.2 ++ [ConnCall.write p]), n, err)
  Read := fun conn size =>
    match net.Read conn.1 size with
    | (inner, data, err) => ((inner, conn.2 ++ [ConnCall.read size]), data, err)
  Read_le := fun conn size => net.Read_le conn.1 size

/-! ## A concrete library instance

The theorems below hold for every `Lib`.  To evaluate the definitions on
concrete buffers an instance is needed; `sampleLib` supplies one.

* Its hash is XXH64 with seed 0, the function `xxhash.Sum64String` computes.
* Its codec is the MessagePack encoding of a map with fewer than 16 entries
  whose keys and values are shorter than 32 bytes (a `fixmap` of `fixstr`s),
  the map being given by its entries in iteration order.  Larger maps and
  longer strings are outside the instance and are answered with an error.
-/

/-- The first 64-bit prime of XXH64. -/
def prime1 : Nat := 0x9E3779B185EBCA87

/-- The second 64-bit prime of XXH64. -/
def prime2 : Nat := 0xC2B2AE3D27D4EB4F

/-- The third 64-bit prime of XXH64. -/
def prime3 : Nat := 0x165667B19E3779F9

/-- The fourth 64-bit prime of XXH64. -/
def prime4 : Nat := 0x85EBCA77C2B2AE63

/-- The fifth 64-bit prime of XXH64. -/
def prime5 : Nat := 0x27D4EB2F165667C5

/-- Rotation of a 64-bit word to the left by `r` bits, for `0 < r < 64`. -/
def rol (r x : Nat) : Nat := (x <<< r % 2 ^ 64) ||| (x >>> (64 - r))

/-- The little-endian value of a run of bytes. -/
def leValue : List Byte → Nat
  | [] => 0
  | b :: rest => b % 256 + 256 * leValue rest

/-- One accumulation round of XXH64. -/
def xxhRound (acc input : Nat) : Nat :=
  rol 31 ((acc + input * prime2) % 2 ^ 64) * prime1 % 2 ^ 64

/-- Folds one lane into the hash after the stripe loop. -/
def xxhMergeRound (acc val : Nat) : Nat :=
  ((acc ^^^ xxhRound 0 val) * prime1 + prime4) % 2 ^ 64

/-- The stripe loop of XXH64: `n` stripes of 32 bytes, four lanes of 8 bytes
each.  The result is the four lanes and the bytes left. -/
def xxhStripes : Nat → List Byte → Nat × Nat × Nat × Nat → (Nat × Nat × Nat × Nat) × List Byte
  | 0, b, v => (v, b)
  | n + 1, b, (v1, v2, v3, v4) =>
    xxhStripes n (b.drop 32)
      (xxhRound v1 (leValue (b.take 8)), xxhRound v2 (leValue ((b.drop 8).take 8)),
       xxhRound v3 (leValue ((b.drop 16).take 8)), xxhRound v4 (leValue ((b.drop 24).take 8)))

/-- The loop of XXH64 over the remaining words of 8 bytes, `n` of them. -/
def xxhWords : Nat → List Byte → Nat → Nat × List Byte
  | 0, b, h => (h, b)
  | n + 1, b, h =>
    xxhWords n (b.drop 8)
      ((rol 27 (h ^^^ xxhRound 0 (leValue (b.take 8))) * prime1 + prime4) % 2 ^ 64)

/-- The loop of XXH64 over the last bytes, one at a time. -/
def xxhLastBytes : List Byte → Nat → Nat
  | [], h => h
  | x :: b, h => xxhLastBytes b (rol 11 (h ^^^ (x % 256 * prime5 % 2 ^ 64)) * prime1 % 2 ^ 64)

/-- The final mixing of XXH64. -/
def xxhAvalanche (h : Nat) : Nat :=
  let h := h ^^^ (h >>> 33)
  let h := h * prime2 % 2 ^ 64
  let h := h ^^^ (h >>> 29)
  let h := h * prime3 % 2 ^ 64
  h ^^^ (h >>> 32)

/-- XXH64 with seed 0 of a byte sequence. -/
def xxh64 (s : GoString) : Nat :=
  let n := s.length
  let (h, b) :=
    if 32 ≤ n then
      let (v, b) := xxhStripes (n / 32) s ((prime1 + prime2) % 2 ^ 64, prime2, 0, 2 ^ 64 - prime1)
      let h := (rol 1 v.1 + rol 7 v.2.1 + rol 12 v.2.2.1 + rol 18 v.2.2.2) % 2 ^ 64
      (xxhMergeRound (xxhMergeRound (xxhMergeRound (xxhMergeRound h v.1) v.2.1) v.2.2.1) v.2.2.2, b)
    else (prime5, s)
  let h := (h + n) % 2 ^ 64
  let (h, b) := xxhWords (b.length / 8) b h
  let (h, b) :=
    if 4 ≤ b.length then
      ((rol 23 (h ^^^ (leValue (b.take 4) * prime1 % 2 ^ 64)) * prime2 + prime3) % 2 ^ 64, b.drop 4)
    else (h, b)
  xxhAvalanche (xxhLastBytes b h)

/-- A metadata map, given by its entries in iteration order. -/
abbrev Entries := List (GoString × GoString)

/-- MessagePack `fixstr`: the byte `0xa0 + length`, then the bytes. -/
def packFixstr (s : GoString) : Except String (List Byte) :=
  if s.length < 32 then .ok ((0xa0 + s.length) :: s) else .error "string too long for fixstr"

/-- The entries of a `fixmap`, each a key `fixstr` followed by a value `fixstr`. -/
def packEntries : Entries → Except String (List Byte)
  | [] => .ok []
  | (k, v) :: rest =>
    match packFixstr k, packFixstr v, packEntries rest with
    | .ok a, .ok b, .ok c => .ok (a ++ b ++ c)
    | .error e, _, _ => .error e
    | _, .error e, _ => .error e
    | _, _, .error e => .error e

/-- MessagePack `fixmap`: the byte `0x80 + size`, then the entries. -/
def packFixmap (m : Entries) : Except String (List Byte) :=
  if m.length < 16 then
    match packEntries m with
    | .ok body => .ok ((0x80 + m.length) :: body)
    | .error e => .error e
  else .error "map too large for fixmap"

/-- Reads one `fixstr`; the result is the string and the bytes left. -/
def unpackFixstr : List Byte → Except String (GoString × List Byte)
  | [] => .error "EOF"
  | c :: rest =>
    if 0xa0 ≤ c ∧ c < 0xc0 then
      if rest.length < c - 0xa0 then .error "unexpected EOF"
      else .ok (rest.take (c - 0xa0), rest.drop (c - 0xa0))
    else .error "invalid code decoding string"

/-- Reads `n` entries; bytes after the last entry are left unread. -/
def unpackEntries : Nat → List Byte → Except String Entries
  | 0, _ => .ok []
  | n + 1, buf =>
    match unpackFixstr buf with
    | .error e => .error e
    | .ok (k, buf) =>
      match unpackFixstr buf with
      | .error e => .error e
      | .ok (v, buf) =>
        match unpackEntries n buf with
        | .error e => .error e
        | .ok rest => .ok ((k, v) :: rest)

/-- Reads a `fixmap`. -/
def unpackFixmap : List Byte → Except String Entries
  | [] => .error "EOF"
  | c :: rest =>
    if 0x80 ≤ c ∧ c < 0x90 then unpackEntries (c - 0x80) rest
    else .error "invalid code decoding map length"

/-- The library instance used to evaluate the definitions on concrete inputs. -/
def sampleLib : Lib Entries where
  Sum64String := xxh64
  Marshal := packFixmap
  Unmarshal := unpackFixmap

/-- The state of the connection instance: whether it is open, and the bytes
the peer has sent that are not read yet. -/
structure Pipe where
  isOpen : Bool
  incoming : List Byte
  deriving DecidableEq, Repr

/-- The connection instance used to evaluate `Write` and `Read`.  On a closed
connection both calls fail.  On an open one a write takes all its bytes, and a
read delivers the first `size` incoming bytes, or fails with `EOF` when there
are none. -/
def pipeConn : Conn Pipe where
  Write := fun conn p =>
    if conn.isOpen then (conn, p.length, none)
    else (conn, 0, some "use of closed network connection")
  Read := fun conn size =>
    if conn.isOpen then
      match conn.incoming with
      | [] => (conn, [], some "EOF")
      | _ :: _ => (⟨true, conn.incoming.drop size⟩, conn.incoming.take size, none)
    else (conn, [], some "use of closed network connection")
  Read_le := by
    intro conn size
    by_cases h : conn.isOpen
    · cases hin : conn.incoming with
      | nil => simp [h, hin]
      | cons a rest => simp [h, hin, List.length_take]
    · simp [h]

/-! ## The instance's hash on published XXH64 values -/

/-- The hash of `sampleLib` on the empty string, on `a`, `as`, `asd`, `asdf`
and on a string of 39 bytes, which goes through the stripe loop. -/
theorem xxh64_values :
    xxh64 [] = 0xef46db3751d8e999 ∧ xxh64 [0x61] = 0xd24ec4f1a98c6e5b ∧
      xxh64 [0x61, 0x73] = 0x1c330fb2d66be179 ∧ xxh64 [0x61, 0x73, 0x64] = 0x631c37ce72a97393 ∧
      xxh64 [0x61, 0x73, 0x64, 0x66] = 0x415872f599cea71e ∧
      xxh64 [78, 111, 98, 111, 100, 121, 32, 105, 110, 115, 112, 101, 99, 116, 115, 32, 116, 104,
        101, 32, 115, 112, 97, 109, 109, 105, 115, 104, 32, 114, 101, 112, 101, 116, 105, 116,
        105, 111, 110] = 0xfbcea83c8a378bf1 := by
  decide

/-! ## The encoder -/

/-- The key has eight bytes. -/
theorem PutUint64_length (v : Nat) : (PutUint64 v).length = 8 := rfl

/-- The token loop appends, to what was written before, every token followed
by the byte 3, in input order. -/
theorem writeTokens_eq (operandBuffer : List Byte) (tokens : List GoString) :
    writeTokens operandBuffer tokens
      = operandBuffer ++ (tokens.map (fun token => token ++ [3])).flatten := by
  induction tokens generalizing operandBuffer with
  | nil => simp [writeTokens]
  | cons token tokens ih => simp [writeTokens, ih]

/-- The bytes `generateOperand` returns when `msgpack.Marshal` yields `packed`. -/
theorem generateOperand_ok {M : Type} (lib : Lib M) (url : GoString)
    (tokens : List GoString) (metadatas : M) (packed : List Byte)
    (hpack : lib.Marshal metadatas = .ok packed) :
    generateOperand lib url tokens metadatas
      = .ok (PutUint64 (lib.Sum64String url % 2 ^ 64) ++ 23 :: 2 :: (url ++ 3 :: 2 ::
          (packed ++ 3 :: 23 :: ((tokens.map (fun token => token ++ [3])).flatten ++ [23])))) := by
  simp [generateOperand, hpack, writeTokens_eq]

/-- C1. Whenever the metadata codec succeeds with `packed`, `generateOperand`
returns no error and exactly the bytes
`key ++ [0x17] ++ [0x02] ++ url ++ [0x03] ++ [0x02] ++ packed ++ [0x03] ++ [0x17]
++ (each token followed by 0x03, in input order) ++ [0x17]`, where the key is
the 8 bytes of the url's hash; byte 8 is 0x17, byte 9 is 0x02 and the last
byte is 0x17. -/
theorem generateOperand_layout {M : Type} (lib : Lib M) (url : GoString)
    (tokens : List GoString) (metadatas : M) (packed : List Byte)
    (hpack : lib.Marshal metadatas = .ok packed) :
    ∃ key out : List Byte,
      key = PutUint64 (lib.Sum64String url % 2 ^ 64) ∧ key.length = 8 ∧
      generateOperand lib url tokens metadatas = .ok out ∧
      out = key ++ [0x17] ++ [0x02] ++ url ++ [0x03] ++ [0x02] ++ packed ++ [0x03] ++ [0x17]
              ++ (tokens.map (fun token => token ++ [0x03])).flatten ++ [0x17] ∧
      out.get? 8 = some 0x17 ∧ out.get? 9 = some 0x02 ∧ out.getLast? = some 0x17 := by
  refine ⟨_, _, rfl, rfl, generateOperand_ok lib url tokens metadatas packed hpack, ?_, ?_, ?_, ?_⟩
  · simp
  · simp [PutUint64]
  · simp [PutUint64]
  · have hlast : PutUint64 (lib.Sum64String url % 2 ^ 64) ++ 23 :: 2 :: (url ++ 3 :: 2 ::
          (packed ++ 3 :: 23 :: ((tokens.map (fun token => token ++ [3])).flatten ++ [23])))
        = (PutUint64 (lib.Sum64String url % 2 ^ 64) ++ 23 :: 2 :: (url ++ 3 :: 2 ::
          (packed ++ 3 :: 23 :: (tokens.map (fun token => token ++ [3])).flatten))) ++ [23] := by
      simp
    rw [hlast]
    exact List.getLast?_concat _

/-- C1, evaluated: a url, three tokens (one empty) and a one-entry map. -/
theorem generateOperand_layout_witness :
    sampleLib.Marshal [([0x6b], [0x76])] = .ok [0x81, 0xa1, 0x6b, 0xa1, 0x76] ∧
    ∃ key out : List Byte,
      key = PutUint64 (sampleLib.Sum64String [0x61] % 2 ^ 64) ∧ key.length = 8 ∧
      generateOperand sampleLib [0x61] [[0x74], [], [0x75, 0x76]] [([0x6b], [0x76])] = .ok out ∧
      out = key ++ [0x17] ++ [0x02] ++ [0x61] ++ [0x03] ++ [0x02] ++ [0x81, 0xa1, 0x6b, 0xa1, 0x76]
              ++ [0x03] ++ [0x17]
              ++ ([[0x74], [], [0x75, 0x76]].map (fun token => token ++ [0x03])).flatten ++ [0x17] ∧
      out.get? 8 = some 0x17 ∧ out.get? 9 = some 0x02 ∧ out.getLast? = some 0x17 :=
  ⟨rfl, generateOperand_layout sampleLib [0x61] [[0x74], [], [0x75, 0x76]] [([0x6b], [0x76])]
    [0x81, 0xa1, 0x6b, 0xa1, 0x76] rfl⟩

/-! ## The decoder -/

/-- Reading the key from a buffer that starts with eight bytes consumes them. -/
theorem bufferRead_key (k rest : List Byte) (hk : k.length = 8) :
    bufferRead 8 (k ++ rest) = some (k, rest) := by
  cases k with
  | nil => simp at hk
  | cons a k =>
    have h1 : List.take 8 (a :: k ++ rest) = a :: k := List.take_left' hk
    have h2 : List.drop 8 (a :: k ++ rest) = rest := List.drop_left' hk
    simp only [bufferRead, List.cons_append]
    rw [← List.cons_append, h1, h2]

/-- A field scan stops at the first byte 3, consuming it. -/
theorem readField_append (u : List Byte) (hu : 3 ∉ u) (field rest : List Byte) :
    readField field (u ++ 3 :: rest) = (field ++ u, rest) := by
  induction u generalizing field with
  | nil => simp [readField]
  | cons b u ih =>
    have hb : b ≠ 3 := fun h => hu (by simp [h])
    have hu2 : 3 ∉ u := fun h => hu (by simp [h])
    simp [readField, hb, ih hu2]

/-- A field scan that meets no byte 3 runs to the end of the buffer. -/
theorem readField_eof (u : List Byte) (hu : 3 ∉ u) (field : List Byte) :
    readField field u = (field ++ u, []) := by
  induction u generalizing field with
  | nil => simp [readField]
  | cons b u ih =>
    have hb : b ≠ 3 := fun h => hu (by simp [h])
    have hu2 : 3 ∉ u := fun h => hu (by simp [h])
    simp [readField, hb, ih hu2]

/-- Inside a token, bytes other than 3 are appended up to the next byte 3. -/
theorem readTokenBytes_append (t : List Byte) (ht : 3 ∉ t) (tokens : List GoString)
    (tokenBytes rest : List Byte) :
    readTokenBytes tokens tokenBytes (t ++ 3 :: rest)
      = readTokens (tokens ++ [tokenBytes ++ t]) rest := by
  induction t generalizing tokenBytes with
  | nil => simp [readTokenBytes]
  | cons b t ih =>
    have hb : b ≠ 3 := fun h => ht (by simp [h])
    have ht2 : 3 ∉ t := fun h => ht (by simp [h])
    simp [readTokenBytes, hb, ih ht2]

/-- A token without the byte 3 that does not begin with the byte 23, followed
by a byte 3, is read back as one token. -/
theorem readTokens_token (t : List Byte) (ht : 3 ∉ t) (hhead : t.head? ≠ some 23)
    (tokens : List GoString) (rest : List Byte) :
    readTokens tokens (t ++ 3 :: rest) = readTokens (tokens ++ [t]) rest := by
  cases t with
  | nil => simp [readTokens]
  | cons b t =>
    have hb : b ≠ 3 := fun h => ht (by simp [h])
    have hb2 : b ≠ 23 := fun h => hhead (by simp [h])
    have ht2 : 3 ∉ t := fun h => ht (by simp [h])
    simp [readTokens, hb, hb2, readTokenBytes_append t ht2]

/-- A token block written by the encoder from tokens that contain no byte 3
and do not begin with the byte 23 is read back as these tokens, whatever
follows the closing byte 23. -/
theorem readTokens_block (toks : List GoString)
    (htoks : ∀ t ∈ toks, 3 ∉ t ∧ t.head? ≠ some 23)
    (tokens : List GoString) (extra : List Byte) :
    readTokens tokens ((toks.map (fun token => token ++ [3])).flatten ++ 23 :: extra)
      = tokens ++ toks := by
  induction toks generalizing tokens with
  | nil => simp [readTokens]
  | cons t toks ih =>
    have h1 := htoks t (by simp)
    have h2 : ∀ t ∈ toks, 3 ∉ t ∧ t.head? ≠ some 23 := fun x hx => htoks x (by simp [hx])
    have hshape : ((t :: toks).map (fun token => token ++ [3])).flatten ++ 23 :: extra
        = t ++ 3 :: ((toks.map (fun token => token ++ [3])).flatten ++ 23 :: extra) := by
      simp
    rw [hshape, readTokens_token t h1.1 h1.2, ih h2]
    simp

/-- On a buffer whose key, url field and metadata field are well delimited,
`parseOperand` returns the url, the decoded metadata and the tokens read from
what follows the byte 23 after the metadata field. -/
theorem parseOperand_fields {M : Type} (lib : Lib M) (k u m body : List Byte) (metadata : M)
    (hk : k.length = 8) (hu : 3 ∉ u) (hm : 3 ∉ m) (hdec : lib.Unmarshal m = .ok metadata) :
    parseOperand lib (k ++ 23 :: 2 :: (u ++ 3 :: 2 :: (m ++ 3 :: 23 :: body)))
      = .ok (u, metadata, readTokens [] body) := by
  simp [parseOperand, bufferRead_key k _ hk, readByte, readField_append u hu,
    readField_append m hm, hdec]

/-- C2. Round trip: when neither the url, nor the packed metadata, nor any
token contains a byte 0x02, 0x03 or 0x17, and the codec decodes the packed
metadata back to the metadata, `parseOperand` applied to the output of
`generateOperand` succeeds and returns exactly the url, the metadata and the
tokens, in their original order. -/
theorem parseOperand_generateOperand {M : Type} (lib : Lib M) (url : GoString)
    (tokens : List GoString) (metadatas : M) (packed : List Byte)
    (hpack : lib.Marshal metadatas = .ok packed)
    (hunpack : lib.Unmarshal packed = .ok metadatas)
    (hurl : ∀ b ∈ url, b ≠ 0x02 ∧ b ≠ 0x03 ∧ b ≠ 0x17)
    (hmeta : ∀ b ∈ packed, b ≠ 0x02 ∧ b ≠ 0x03 ∧ b ≠ 0x17)
    (htokens : ∀ t ∈ tokens, ∀ b ∈ t, b ≠ 0x02 ∧ b ≠ 0x03 ∧ b ≠ 0x17) :
    ∃ out, generateOperand lib url tokens metadatas = .ok out ∧
      parseOperand lib out = .ok (url, metadatas, tokens) := by
  refine ⟨_, generateOperand_ok lib url tokens metadatas packed hpack, ?_⟩
  have hu : 3 ∉ url := fun h => (hurl 3 h).2.1 rfl
  have hm : 3 ∉ packed := fun h => (hmeta 3 h).2.1 rfl
  have ht : ∀ t ∈ tokens, 3 ∉ t ∧ t.head? ≠ some 23 := by
    intro t htm
    refine ⟨fun h => (htokens t htm 3 h).2.1 rfl, fun h => ?_⟩
    have hmem : 23 ∈ t := by
      cases t with
      | nil => simp at h
      | cons b t => simp at h; simp [h]
    exact (htokens t htm 23 hmem).2.2 rfl
  rw [parseOperand_fields lib _ url packed _ metadatas (PutUint64_length _) hu hm hunpack]
  have hblock := readTokens_block tokens ht [] []
  simp only [List.nil_append] at hblock
  rw [hblock]

/-- C2, evaluated: a url, three tokens (one empty) and a one-entry map. -/
theorem parseOperand_generateOperand_witness :
    ∃ out, generateOperand sampleLib [0x61] [[0x74], [], [0x75, 0x76]] [([0x6b], [0x76])] = .ok out ∧
      parseOperand sampleLib out = .ok ([0x61], [([0x6b], [0x76])], [[0x74], [], [0x75, 0x76]]) :=
  parseOperand_generateOperand sampleLib [0x61] [[0x74], [], [0x75, 0x76]] [([0x6b], [0x76])]
    [0x81, 0xa1, 0x6b, 0xa1, 0x76] rfl rfl (by decide) (by decide) (by decide)

/-! ## Empty input and the key -/

/-- Every successful call of `generateOperand` went through a successful
`msgpack.Marshal` and returns the frame built around its result. -/
theorem generateOperand_inv {M : Type} (lib : Lib M) (url : GoString)
    (tokens : List GoString) (metadatas : M) (out : List Byte)
    (hout : generateOperand lib url tokens metadatas = .ok out) :
    ∃ packed, lib.Marshal metadatas = .ok packed ∧
      out = PutUint64 (lib.Sum64String url % 2 ^ 64) ++ 23 :: 2 :: (url ++ 3 :: 2 ::
          (packed ++ 3 :: 23 :: ((tokens.map (fun token => token ++ [3])).flatten ++ [23]))) := by
  cases hm : lib.Marshal metadatas with
  | error e => simp [generateOperand, hm] at hout
  | ok packed =>
    rw [generateOperand_ok lib url tokens metadatas packed hm] at hout
    exact ⟨packed, rfl, (Except.ok.inj hout).symm⟩

/-- C3. Empty input: for the empty url, the empty token list and the empty
metadata map (any metadata value the codec packs), `generateOperand` returns
no error and a non-empty byte sequence made of the 8-byte key of the empty
url, 0x17, the pair 0x02 0x03, 0x02 ++ pack ++ 0x03, 0x17 and a final 0x17;
its length is 15 plus the length of the packed map, so at least 15. -/
theorem generateOperand_empty {M : Type} (lib : Lib M) (emptyMap : M) (packed : List Byte)
    (hpack : lib.Marshal emptyMap = .ok packed) :
    ∃ key out : List Byte,
      key = PutUint64 (lib.Sum64String [] % 2 ^ 64) ∧ key.length = 8 ∧
      generateOperand lib [] [] emptyMap = .ok out ∧ out ≠ [] ∧
      out = key ++ [0x17] ++ [0x02, 0x03] ++ ([0x02] ++ packed ++ [0x03]) ++ [0x17] ++ [0x17] ∧
      out.length = 15 + packed.length ∧ 15 ≤ out.length := by
  refine ⟨_, _, rfl, rfl, generateOperand_ok lib [] [] emptyMap packed hpack, ?_, ?_, ?_, ?_⟩
  · simp [PutUint64]
  · simp
  · simp [PutUint64]; omega
  · simp [PutUint64]

/-- C3, evaluated: the empty map packs to the single byte 0x80 and the frame
has 16 bytes. -/
theorem generateOperand_empty_witness :
    sampleLib.Marshal [] = .ok [0x80] ∧
    ∃ key out : List Byte,
      key = PutUint64 (sampleLib.Sum64String [] % 2 ^ 64) ∧ key.length = 8 ∧
      generateOperand sampleLib [] [] [] = .ok out ∧ out ≠ [] ∧
      out = key ++ [0x17] ++ [0x02, 0x03] ++ ([0x02] ++ [0x80] ++ [0x03]) ++ [0x17] ++ [0x17] ∧
      out.length = 15 + [0x80].length ∧ 15 ≤ out.length :=
  ⟨rfl, generateOperand_empty sampleLib [] [0x80] rfl⟩

/-- C4, evaluated at the input of `TestGenerateOperandEmptyInput`: with the
empty url, the empty token list and the empty map, `generateOperand` returns
sixteen bytes, where the test expects the nil slice. -/
theorem generateOperand_empty_not_nil :
    returnedBytes (generateOperand sampleLib [] [] [])
        = [0x99, 0xe9, 0xd8, 0x51, 0x37, 0xdb, 0x46, 0xef, 23, 2, 3, 2, 128, 3, 23, 23] ∧
      returnedBytes (generateOperand sampleLib [] [] []) ≠ [] :=
  ⟨rfl, by decide⟩

/-- With the empty url and the empty token list, the bytes `generateOperand`
returns are nil exactly when the metadata codec fails (the nil slice then
comes with the packing error); otherwise they are at least 15. -/
theorem generateOperand_empty_nil_iff {M : Type} (lib : Lib M) (emptyMap : M) :
    (returnedBytes (generateOperand lib [] [] emptyMap) = [] ↔
        ∃ e, lib.Marshal emptyMap = .error e ∧
          generateOperand lib [] [] emptyMap = .error (.packingMetadata e)) ∧
      (returnedBytes (generateOperand lib [] [] emptyMap) = [] ∨
        15 ≤ (returnedBytes (generateOperand lib [] [] emptyMap)).length) := by
  cases hm : lib.Marshal emptyMap with
  | error e =>
    have hgen : generateOperand lib [] [] emptyMap = .error (.packingMetadata e) := by
      simp [generateOperand, hm]
    simp [hgen, returnedBytes]
  | ok packed =>
    rw [generateOperand_ok lib [] [] emptyMap packed hm]
    simp [returnedBytes, PutUint64]

/-- C5. Key: the first 8 bytes of the output of `generateOperand` are the
little-endian bytes of the 64-bit hash `h` of the url, byte `i` being
`(h / 256 ^ i) % 256`; any other successful call with the same url, whatever
its tokens and metadata, starts with the same 8 bytes. -/
theorem generateOperand_key {M : Type} (lib : Lib M) (url : GoString)
    (tokens : List GoString) (metadatas : M) (out : List Byte)
    (hout : generateOperand lib url tokens metadatas = .ok out) :
    (∀ i, i < 8 → out.get? i = some (lib.Sum64String url % 2 ^ 64 / 256 ^ i % 256)) ∧
      (∀ (tokens2 : List GoString) (metadatas2 : M) (out2 : List Byte),
        generateOperand lib url tokens2 metadatas2 = .ok out2 → out2.take 8 = out.take 8) := by
  obtain ⟨packed, -, rfl⟩ := generateOperand_inv lib url tokens metadatas out hout
  constructor
  · intro i hi
    interval_cases i <;> simp [PutUint64]
  · intro tokens2 metadatas2 out2 hout2
    obtain ⟨packed2, -, rfl⟩ := generateOperand_inv lib url tokens2 metadatas2 out2 hout2
    rw [List.take_left' (PutUint64_length _), List.take_left' (PutUint64_length _)]

/-- C5, evaluated: the same url with different tokens and metadata. -/
theorem generateOperand_key_witness :
    generateOperand sampleLib [0x61] [] []
        = .ok [0x5b, 0x6e, 0x8c, 0xa9, 0xf1, 0xc4, 0x4e, 0xd2, 23, 2, 97, 3, 2, 128, 3, 23, 23] ∧
      (∀ i, i < 8 →
        [0x5b, 0x6e, 0x8c, 0xa9, 0xf1, 0xc4, 0x4e, 0xd2, 23, 2, 97, 3, 2, 128, 3, 23, 23].get? i
          = some (sampleLib.Sum64String [0x61] % 2 ^ 64 / 256 ^ i % 256)) ∧
      (∀ (tokens2 : List GoString) (metadatas2 : Entries) (out2 : List Byte),
        generateOperand sampleLib [0x61] tokens2 metadatas2 = .ok out2 →
          out2.take 8
            = [0x5b, 0x6e, 0x8c, 0xa9, 0xf1, 0xc4, 0x4e, 0xd2, 23, 2, 97, 3, 2, 128, 3, 23, 23].take 8) :=
  ⟨rfl, generateOperand_key sampleLib [0x61] [] []
    [0x5b, 0x6e, 0x8c, 0xa9, 0xf1, 0xc4, 0x4e, 0xd2, 23, 2, 97, 3, 2, 128, 3, 23, 23] rfl⟩

/-! ## Delimiter collision -/

/-- No token the token loops collect contains the byte 3: the byte 3 always
closes the token being read. -/
theorem readTokens_no_ETX (buf : List Byte) :
    (∀ tokens : List GoString, (∀ t ∈ tokens, 3 ∉ t) → ∀ t ∈ readTokens tokens buf, 3 ∉ t) ∧
    (∀ (tokens : List GoString) (tokenBytes : List Byte), (∀ t ∈ tokens, 3 ∉ t) →
      3 ∉ tokenBytes → ∀ t ∈ readTokenBytes tokens tokenBytes buf, 3 ∉ t) := by
  induction buf with
  | nil =>
    constructor
    · intro tokens h t ht
      simp only [readTokens] at ht
      exact h t ht
    · intro tokens tokenBytes h hb t ht
      simp only [readTokenBytes, List.mem_append, List.mem_singleton] at ht
      rcases ht with ht | rfl
      · exact h t ht
      · exact hb
  | cons b rest ih =>
    have hsnoc : ∀ (tokens : List GoString) (x : List Byte), (∀ t ∈ tokens, 3 ∉ t) → 3 ∉ x →
        ∀ t ∈ tokens ++ [x], 3 ∉ t := by
      intro tokens x h hx t ht
      simp only [List.mem_append, List.mem_singleton] at ht
      rcases ht with ht | rfl
      · exact h t ht
      · exact hx
    constructor
    · intro tokens h t ht
      simp only [readTokens] at ht
      by_cases h23 : b = 23
      · simp only [h23, if_true] at ht
        exact h t ht
      · by_cases h3 : b = 3
        · simp only [h3, if_true] at ht
          exact ih.1 _ (hsnoc tokens [] h (by simp)) t (by simpa using ht)
        · simp only [h23, h3, if_false] at ht
          exact ih.2 tokens [b] h (by simpa using Ne.symm h3) t ht
    · intro tokens tokenBytes h hb t ht
      simp only [readTokenBytes] at ht
      by_cases h3 : b = 3
      · simp only [h3, if_true] at ht
        exact ih.1 _ (hsnoc tokens tokenBytes h hb) t ht
      · simp only [h3, if_false] at ht
        refine ih.2 tokens (tokenBytes ++ [b]) h ?_ t ht
        simp only [List.mem_append, List.mem_singleton, not_or]
        exact ⟨hb, Ne.symm h3⟩

/-- C6, refuted as stated: the token list holding the single token 0x03 is
encoded without error, and the output is decoded without error as two empty
tokens. -/
theorem delimiter_collision_is_silent :
    generateOperand sampleLib [] [[0x03]] []
        = .ok [0x99, 0xe9, 0xd8, 0x51, 0x37, 0xdb, 0x46, 0xef, 23, 2, 3, 2, 128, 3, 23, 3, 3, 23] ∧
      parseOperand sampleLib [0x99, 0xe9, 0xd8, 0x51, 0x37, 0xdb, 0x46, 0xef, 23, 2, 3, 2, 128, 3, 23, 3, 3, 23]
        = .ok ([], [], [[], []]) ∧
      ([[], []] : List GoString) ≠ [[0x03]] :=
  ⟨rfl, rfl, by decide⟩

/-- C6, amended. When the url and the packed metadata contain no byte 0x03 and
the codec decodes the packed metadata, a token list in which some token is the
single byte 0x03 is encoded without error and decoded without error, and the
decoded token list differs from the one encoded: no decoded token contains the
byte 0x03. -/
theorem delimiter_collision_decodes {M : Type} (lib : Lib M) (url : GoString)
    (tokens : List GoString) (metadatas decoded : M) (packed : List Byte)
    (hpack : lib.Marshal metadatas = .ok packed)
    (hunpack : lib.Unmarshal packed = .ok decoded)
    (hurl : 0x03 ∉ url) (hmeta : 0x03 ∉ packed)
    (htoken : [0x03] ∈ tokens) :
    ∃ (out : List Byte) (toks : List GoString),
      generateOperand lib url tokens metadatas = .ok out ∧
      parseOperand lib out = .ok (url, decoded, toks) ∧
      toks ≠ tokens ∧ ∀ t ∈ toks, 0x03 ∉ t := by
  refine ⟨_, _, generateOperand_ok lib url tokens metadatas packed hpack,
    parseOperand_fields lib _ url packed _ decoded (PutUint64_length _) hurl hmeta hunpack,
    ?_, ?_⟩
  · intro heq
    have h3 := (readTokens_no_ETX _).1 [] (by simp) [3] (by rw [heq]; exact htoken)
    exact h3 (by simp)
  · exact (readTokens_no_ETX _).1 [] (by simp)

/-- C6 amended, evaluated on the token list `["t", "\x03", "u"]`. -/
theorem delimiter_collision_decodes_witness :
    ∃ (out : List Byte) (toks : List GoString),
      generateOperand sampleLib [0x61] [[0x74], [0x03], [0x75]] [] = .ok out ∧
      parseOperand sampleLib out = .ok ([0x61], [], toks) ∧
      toks ≠ [[0x74], [0x03], [0x75]] ∧ ∀ t ∈ toks, 0x03 ∉ t :=
  delimiter_collision_decodes sampleLib [0x61] [[0x74], [0x03], [0x75]] [] [] [0x80] rfl rfl
    (by decide) (by decide) (by decide)

/-! ## Structural failures of the decoder -/

/-- A non-empty buffer of fewer than 8 bytes passes the key step, which reads
what is there without error, and fails at the byte expected after the key. -/
theorem parseOperand_short_key {M : Type} (lib : Lib M) (operand : List Byte)
    (hpos : 0 < operand.length) (hlen : operand.length < 8) :
    parseOperand lib operand = .error .expectedETBAfterKey := by
  cases operand with
  | nil => simp at hpos
  | cons a rest =>
    have hdrop : List.drop 8 (a :: rest) = [] := List.drop_of_length_le (by omega)
    simp [parseOperand, bufferRead, readByte, hdrop]

/-- C7, evaluated. The empty buffer fails with the key error; a buffer of one
byte and a buffer of seven bytes fail with the error of the delimiter expected
after the key. -/
theorem parseOperand_truncated_key :
    parseOperand sampleLib [] = .error .readingKey ∧
      parseOperand sampleLib [0x41] = .error .expectedETBAfterKey ∧
      parseOperand sampleLib [1, 2, 3, 4, 5, 6, 7] = .error .expectedETBAfterKey :=
  ⟨rfl, rfl, rfl⟩

/-- C8. Missing post-key delimiter: on every buffer of at least 9 bytes whose
byte at index 8 is not 0x17, whatever follows, `parseOperand` fails with the
error `expected End of Transaction Block after key`; an error return carries
no url, metadata or tokens. -/
theorem parseOperand_missing_ETB_after_key {M : Type} (lib : Lib M) (operand : List Byte)
    (hlen : 9 ≤ operand.length) (hninth : operand.get? 8 ≠ some 0x17) :
    parseOperand lib operand = .error .expectedETBAfterKey := by
  obtain ⟨k, b, rest, hk, rfl⟩ :
      ∃ (k : List Byte) (b : Byte) (rest : List Byte), k.length = 8 ∧ operand = k ++ b :: rest := by
    cases hd : operand.drop 8 with
    | nil =>
      have h0 : (operand.drop 8).length = 0 := by rw [hd]; rfl
      simp at h0
      omega
    | cons b rest =>
      refine ⟨operand.take 8, b, rest, by simp; omega, ?_⟩
      rw [← hd, List.take_append_drop]
  have hb : (k ++ b :: rest).get? 8 = some b := by
    rw [List.get?_eq_getElem?, List.getElem?_append_right (by omega)]
    simp [hk]
  have hne : b ≠ 23 := fun h => hninth (by rw [hb, h])
  simp [parseOperand, bufferRead_key k _ hk, readByte, hne]

/-- C8, evaluated: eight key bytes, then 0x02 where 0x17 is expected. -/
theorem parseOperand_missing_ETB_after_key_witness :
    parseOperand sampleLib [0, 0, 0, 0, 0, 0, 0, 0, 0x02, 0x61, 0x03, 0x02, 0x80, 0x03, 0x17, 0x17]
      = .error .expectedETBAfterKey :=
  parseOperand_missing_ETB_after_key sampleLib
    [0, 0, 0, 0, 0, 0, 0, 0, 0x02, 0x61, 0x03, 0x02, 0x80, 0x03, 0x17, 0x17]
    (by decide) (by decide)

/-- C9. Token-block tolerance: a buffer `k ++ [0x17, 0x02] ++ u ++ [0x03, 0x02]
++ m ++ [0x03, 0x17]` with `k` of 8 bytes, `u` and `m` free of 0x03 and `m`
decoded by the codec, which ends right after the metadata block's 0x17, is
parsed without error into the url `u`, the decoded metadata and no tokens. -/
theorem parseOperand_without_token_block {M : Type} (lib : Lib M) (k u m : List Byte)
    (metadata : M) (hk : k.length = 8) (hu : 0x03 ∉ u) (hm : 0x03 ∉ m)
    (hdec : lib.Unmarshal m = .ok metadata) :
    parseOperand lib (k ++ [0x17, 0x02] ++ u ++ [0x03, 0x02] ++ m ++ [0x03, 0x17])
      = .ok (u, metadata, []) := by
  have h := parseOperand_fields lib k u m [] metadata hk hu hm hdec
  simpa [readTokens] using h

/-- C9, evaluated: the url `a`, a one-entry map and no token block. -/
theorem parseOperand_without_token_block_witness :
    parseOperand sampleLib ([1, 2, 3, 4, 5, 6, 7, 8] ++ [0x17, 0x02] ++ [0x61] ++ [0x03, 0x02]
        ++ [0x81, 0xa1, 0x6b, 0xa1, 0x76] ++ [0x03, 0x17])
      = .ok ([0x61], [([0x6b], [0x76])], []) :=
  parseOperand_without_token_block sampleLib [1, 2, 3, 4, 5, 6, 7, 8] [0x61]
    [0x81, 0xa1, 0x6b, 0xa1, 0x76] [([0x6b], [0x76])] rfl (by decide) (by decide) rfl

/-- C10, refuted as stated: a buffer that ends inside the url field fails with
the missing-delimiter error of the metadata field. -/
theorem parseOperand_eof_in_url_example :
    parseOperand sampleLib [0, 0, 0, 0, 0, 0, 0, 0, 0x17, 0x02, 0x61, 0x62]
      = .error .expectedSTXForMetadata :=
  rfl

/-- C10, amended. On a buffer made of 8 key bytes, 0x17, 0x02 and then bytes
none of which is 0x03, `parseOperand` fails with the error
`expected Start of Text for metadata`: the url scan ends silently at the end of
the buffer and the failure is reported by the next step. -/
theorem parseOperand_eof_in_url {M : Type} (lib : Lib M) (k rest : List Byte)
    (hk : k.length = 8) (hrest : 0x03 ∉ rest) :
    parseOperand lib (k ++ [0x17, 0x02] ++ rest) = .error .expectedSTXForMetadata := by
  have hshape : k ++ [0x17, 0x02] ++ rest = k ++ (23 :: 2 :: rest) := by simp
  rw [hshape]
  simp [parseOperand, bufferRead_key k _ hk, readByte, readField_eof rest hrest]

/-- C10 amended, evaluated on a buffer whose url field holds `ab` and no 0x03. -/
theorem parseOperand_eof_in_url_witness :
    parseOperand sampleLib ([1, 2, 3, 4, 5, 6, 7, 8] ++ [0x17, 0x02] ++ [0x61, 0x62])
      = .error .expectedSTXForMetadata :=
  parseOperand_eof_in_url sampleLib [1, 2, 3, 4, 5, 6, 7, 8] [0x61, 0x62] rfl (by decide)

/-! ## Bad metadata and the empty token list -/

/-- C11. Bad metadata: on a buffer `k ++ [0x17, 0x02] ++ u ++ [0x03, 0x02] ++ m
++ [0x03] ++ rest` with `k` of 8 bytes and `u`, `m` free of 0x03, if the codec
rejects `m` then `parseOperand` fails with the error `error unpacking
metadata` wrapping the codec's error, whatever `rest` is; an error return
carries no url, metadata or tokens. -/
theorem parseOperand_bad_metadata {M : Type} (lib : Lib M) (k u m rest : List Byte)
    (cause : String) (hk : k.length = 8) (hu : 0x03 ∉ u) (hm : 0x03 ∉ m)
    (hdec : lib.Unmarshal m = .error cause) :
    parseOperand lib (k ++ [0x17, 0x02] ++ u ++ [0x03, 0x02] ++ m ++ [0x03] ++ rest)
      = .error (.unpackingMetadata cause) := by
  have hshape : k ++ [0x17, 0x02] ++ u ++ [0x03, 0x02] ++ m ++ [0x03] ++ rest
      = k ++ 23 :: 2 :: (u ++ 3 :: 2 :: (m ++ 3 :: rest)) := by simp
  rw [hshape]
  simp [parseOperand, bufferRead_key k _ hk, readByte, readField_append u hu,
    readField_append m hm, hdec]

/-- C11, evaluated: the metadata field holds the byte 0xc1, which is no map, and
is followed by a well-formed token block. -/
theorem parseOperand_bad_metadata_witness :
    parseOperand sampleLib ([1, 2, 3, 4, 5, 6, 7, 8] ++ [0x17, 0x02] ++ [0x61] ++ [0x03, 0x02]
        ++ [0xc1] ++ [0x03] ++ [0x17, 0x74, 0x03, 0x17])
      = .error (.unpackingMetadata "invalid code decoding map length") :=
  parseOperand_bad_metadata sampleLib [1, 2, 3, 4, 5, 6, 7, 8] [0x61] [0xc1]
    [0x17, 0x74, 0x03, 0x17] "invalid code decoding map length" rfl (by decide) (by decide) rfl

/-- The bytes written for a non-empty token list are not empty. -/
theorem tokenBlock_length_pos (tokens : List GoString) (hne : tokens ≠ []) :
    0 < ((tokens.map (fun token => token ++ [3])).flatten).length := by
  cases tokens with
  | nil => exact absurd rfl hne
  | cons t ts => simp

/-- C12. Zero tokens: when the codec packs the metadata, the output of
`generateOperand` for the empty token list is the key, the url field and the
metadata field up to its closing 0x03, followed by exactly two bytes 0x17; and
for every non-empty token list the output, which exists, is a longer and so a
different byte sequence. -/
theorem generateOperand_zero_tokens {M : Type} (lib : Lib M) (url : GoString)
    (metadatas : M) (packed : List Byte) (hpack : lib.Marshal metadatas = .ok packed) :
    ∃ out : List Byte,
      generateOperand lib url [] metadatas = .ok out ∧
      out = (PutUint64 (lib.Sum64String url % 2 ^ 64) ++ [0x17, 0x02] ++ url ++ [0x03, 0x02]
              ++ packed ++ [0x03]) ++ [0x17, 0x17] ∧
      ∀ tokens : List GoString, tokens ≠ [] →
        ∃ out2 : List Byte, generateOperand lib url tokens metadatas = .ok out2 ∧
          out.length < out2.length ∧ out2 ≠ out := by
  refine ⟨_, generateOperand_ok lib url [] metadatas packed hpack, by simp, ?_⟩
  intro tokens hne
  refine ⟨_, generateOperand_ok lib url tokens metadatas packed hpack, ?_, ?_⟩
  · have hpos := tokenBlock_length_pos tokens hne
    simp only [List.length_append, List.length_cons, List.map_nil, List.flatten_nil,
      List.length_nil]
    omega
  · intro heq
    have hlen := congrArg List.length heq
    have hpos := tokenBlock_length_pos tokens hne
    simp only [List.length_append, List.length_cons, List.map_nil, List.flatten_nil,
      List.length_nil] at hlen
    omega

/-- C12, evaluated on the url `a` and the empty map. -/
theorem generateOperand_zero_tokens_witness :
    ∃ out : List Byte,
      generateOperand sampleLib [0x61] [] [] = .ok out ∧
      out = (PutUint64 (sampleLib.Sum64String [0x61] % 2 ^ 64) ++ [0x17, 0x02] ++ [0x61]
              ++ [0x03, 0x02] ++ [0x80] ++ [0x03]) ++ [0x17, 0x17] ∧
      ∀ tokens : List GoString, tokens ≠ [] →
        ∃ out2 : List Byte, generateOperand sampleLib [0x61] tokens [] = .ok out2 ∧
          out.length < out2.length ∧ out2 ≠ out :=
  generateOperand_zero_tokens sampleLib [0x61] [] [0x80] rfl

/-! ## Write and Read over the connection -/

/-- C13. On any connection, observed through the list of calls made on it:
when `generateOperand` returns bytes, `Write` makes exactly one call, a write
of exactly these bytes, leaves the connection as that call left it and returns
the error of that call unchanged; when `generateOperand` fails, `Write`
returns its error and makes no call on the connection, whose state is
unchanged. -/
theorem Write_hands_operand {σ M : Type} (net : Conn σ) (lib : Lib M) (conn : σ)
    (calls : List ConnCall) (url : GoString) (tokens : List GoString) (metadatas : M) :
    (∀ operandBytes, generateOperand lib url tokens metadatas = .ok operandBytes →
        Write (recording net) lib (conn, calls) url tokens metadatas
          = (((net.Write conn operandBytes).1, calls ++ [ConnCall.write operandBytes]),
              (net.Write conn operandBytes).2.2.map WriteError.conn)) ∧
      (∀ err, generateOperand lib url tokens metadatas = .error err →
        Write (recording net) lib (conn, calls) url tokens metadatas
          = ((conn, calls), some (WriteError.operand err))) := by
  constructor
  · intro operandBytes hgen
    simp [Write, hgen, recording]
  · intro err hgen
    simp [Write, hgen]

/-- C13, evaluated: on an open connection the frame of the empty input is
written in one call and no error is returned; on a closed one the same call is
made and its error is returned; when the codec refuses a key of 32 bytes, no
call is made. -/
theorem Write_hands_operand_witness :
    Write (recording pipeConn) sampleLib (⟨true, []⟩, []) [] [] []
        = ((⟨true, []⟩, [ConnCall.write [0x99, 0xe9, 0xd8, 0x51, 0x37, 0xdb, 0x46, 0xef,
            0x17, 0x02, 0x03, 0x02, 0x80, 0x03, 0x17, 0x17]]), none) ∧
      Write (recording pipeConn) sampleLib (⟨false, []⟩, []) [] [] []
        = ((⟨false, []⟩, [ConnCall.write [0x99, 0xe9, 0xd8, 0x51, 0x37, 0xdb, 0x46, 0xef,
            0x17, 0x02, 0x03, 0x02, 0x80, 0x03, 0x17, 0x17]]),
            some (WriteError.conn "use of closed network connection")) ∧
      Write (recording pipeConn) sampleLib (⟨true, []⟩, []) [] [] [(List.replicate 32 0x6b, [])]
        = ((⟨true, []⟩, []),
            some (WriteError.operand (.packingMetadata "string too long for fixstr"))) :=
  ⟨(Write_hands_operand pipeConn sampleLib ⟨true, []⟩ [] [] [] []).1 _ rfl,
   (Write_hands_operand pipeConn sampleLib ⟨false, []⟩ [] [] [] []).1 _ rfl,
   (Write_hands_operand pipeConn sampleLib ⟨true, []⟩ [] [] []
      [(List.replicate 32 0x6b, [])]).2 _ rfl⟩

/-- C14. On any connection, observed through the list of calls made on it:
`Read` first makes one write of exactly the byte 0x0A followed by the bytes of
the token, `1 + len(token)` bytes.  If that write fails, its error is returned
and no read is made.  Otherwise one read into 100 bytes follows; if it
succeeds, the response is the bytes that read delivered, at most 100, and if
it fails its error is returned. -/
theorem Read_sends_command {σ : Type} (net : Conn σ) (conn : σ) (calls : List ConnCall)
    (token : GoString) :
    ([0x0A] ++ token).length = 1 + token.length ∧
      (∀ err, (net.Write conn ([0x0A] ++ token)).2.2 = some err →
        Read (recording net) (conn, calls) token
          = (((net.Write conn ([0x0A] ++ token)).1, calls ++ [ConnCall.write ([0x0A] ++ token)]),
              .error err)) ∧
      ((net.Write conn ([0x0A] ++ token)).2.2 = none →
        ∃ (after : σ) (response : Except String (List Byte)),
          Read (recording net) (conn, calls) token
            = ((after, calls ++ [ConnCall.write ([0x0A] ++ token), ConnCall.read 100]), response) ∧
          after = (net.Read (net.Write conn ([0x0A] ++ token)).1 100).1 ∧
          (∀ err, (net.Read (net.Write conn ([0x0A] ++ token)).1 100).2.2 = some err →
            response = .error err) ∧
          ((net.Read (net.Write conn ([0x0A] ++ token)).1 100).2.2 = none →
            response = .ok (net.Read (net.Write conn ([0x0A] ++ token)).1 100).2.1 ∧
            (net.Read (net.Write conn ([0x0A] ++ token)).1 100).2.1.length ≤ 100)) := by
  refine ⟨by simp; omega, ?_, ?_⟩
  · intro err hw
    rcases hres : net.Write conn ([0x0A] ++ token) with ⟨c1, n, werr⟩
    rw [hres] at hw
    simp only at hw
    subst hw
    simp only [Read, recording, hres]
  · intro hw
    rcases hres : net.Write conn ([0x0A] ++ token) with ⟨c1, n, werr⟩
    rw [hres] at hw
    simp only at hw
    subst hw
    have hres2 : net.Write conn (10 :: token) = (c1, n, none) := hres
    have hle := net.Read_le c1 100
    rcases hrd : net.Read c1 100 with ⟨c2, data, rerr⟩
    rw [hrd] at hle
    cases rerr with
    | none =>
      refine ⟨c2, .ok data, ?_, rfl, ?_, ?_⟩
      · simp [Read, recording, hres2, hrd]
      · intro err h; simp at h
      · intro _; exact ⟨rfl, hle⟩
    | some e =>
      refine ⟨c2, .error e, ?_, rfl, ?_, ?_⟩
      · simp [Read, recording, hres2, hrd]
      · intro err h; simp at h; rw [h]
      · intro h; simp at h

/-- C14, evaluated on the token `t`: on a closed connection the command is
written, the write fails and no read is made; on an open connection holding
150 incoming bytes the command is written, one read follows and the response
is the first 100 bytes. -/
theorem Read_sends_command_witness :
    Read (recording pipeConn) (⟨false, []⟩, []) [0x74]
        = ((⟨false, []⟩, [ConnCall.write [0x0A, 0x74]]),
            .error "use of closed network connection") ∧
      Read (recording pipeConn) (⟨true, List.replicate 150 7⟩, []) [0x74]
        = ((⟨true, List.replicate 50 7⟩, [ConnCall.write [0x0A, 0x74], ConnCall.read 100]),
            .ok (List.replicate 100 7)) ∧
      (List.replicate 100 7).length ≤ 100 := by
  refine ⟨(Read_sends_command pipeConn ⟨false, []⟩ [] [0x74]).2.1 _ rfl, ?_⟩
  obtain ⟨after, response, hread, hafter, -, hok⟩ :=
    (Read_sends_command pipeConn ⟨true, List.replicate 150 7⟩ [] [0x74]).2.2 rfl
  obtain ⟨hresp, hlen⟩ := hok rfl
  rw [hread, hafter, hresp]
  exact ⟨rfl, hlen⟩

/-! ## What the decoder accepts -/

/-- A field scan either stopped at a byte 3, and the field is what precedes it,
or met none, and then the buffer is read to its end. -/
theorem readField_inv (buf field out rest : List Byte)
    (h : readField field buf = (out, rest)) :
    (∃ u, buf = u ++ 3 :: rest ∧ 3 ∉ u ∧ out = field ++ u) ∨
      (3 ∉ buf ∧ rest = [] ∧ out = field ++ buf) := by
  induction buf generalizing field with
  | nil =>
    simp only [readField, Prod.mk.injEq] at h
    exact Or.inr ⟨by simp, h.2.symm, by simp [h.1]⟩
  | cons b tl ih =>
    by_cases hb : b = 3
    · subst hb
      simp only [readField, if_true, Prod.mk.injEq] at h
      exact Or.inl ⟨[], by simp [h.2], by simp, by simp [h.1]⟩
    · simp only [readField, hb, if_false] at h
      rcases ih _ h with ⟨u, hu1, hu2, hu3⟩ | ⟨h1, h2, h3⟩
      · refine Or.inl ⟨b :: u, by simp [hu1], ?_, by simp [hu3]⟩
        simp only [List.mem_cons, not_or]
        exact ⟨Ne.symm hb, hu2⟩
      · refine Or.inr ⟨?_, h2, by simp [h3]⟩
        simp only [List.mem_cons, not_or]
        exact ⟨Ne.symm hb, h1⟩

/-- Every buffer `parseOperand` accepts is a key of 8 bytes, 0x17, a url field,
a metadata field the codec decodes, 0x17 and a remainder, from which the tokens
are read. -/
theorem parseOperand_inv {M : Type} (lib : Lib M) (operand : List Byte) (url : GoString)
    (metadata : M) (tokens : List GoString)
    (h : parseOperand lib operand = .ok (url, metadata, tokens)) :
    ∃ k u m rest : List Byte,
      operand = k ++ 23 :: 2 :: (u ++ 3 :: 2 :: (m ++ 3 :: 23 :: rest)) ∧ k.length = 8 ∧
      3 ∉ u ∧ 3 ∉ m ∧ url = u ∧ lib.Unmarshal m = .ok metadata ∧
      tokens = readTokens [] rest := by
  cases hop : operand with
  | nil => rw [hop] at h; simp [parseOperand, bufferRead] at h
  | cons a tl =>
    have hbr : bufferRead 8 (a :: tl) = some ((a :: tl).take 8, (a :: tl).drop 8) := rfl
    rw [hop] at h
    simp only [parseOperand, hbr] at h
    cases hd : (a :: tl).drop 8 with
    | nil => rw [hd] at h; simp [readByte] at h
    | cons b r1 =>
      rw [hd] at h
      simp only [readByte] at h
      by_cases hb : b = 23
      swap
      · simp [hb] at h
      subst hb
      cases r1 with
      | nil => simp at h
      | cons b2 r2 =>
        by_cases hb2 : b2 = 2
        swap
        · simp [hb2] at h
        subst hb2
        rcases hf1 : readField [] r2 with ⟨urlBytes, r3⟩
        simp only [ne_eq, not_true_eq_false, if_false, hf1] at h
        cases r3 with
        | nil => simp at h
        | cons b3 r4 =>
          by_cases hb3 : b3 = 2
          swap
          · simp [hb3] at h
          subst hb3
          rcases hf2 : readField [] r4 with ⟨packedMetadata, r5⟩
          simp only [ne_eq, not_true_eq_false, if_false, hf2] at h
          cases hun : lib.Unmarshal packedMetadata with
          | error e => simp [hun] at h
          | ok md =>
            cases r5 with
            | nil => simp [hun] at h
            | cons b5 r6 =>
              by_cases hb5 : b5 = 23
              swap
              · simp [hun, hb5] at h
              subst hb5
              simp [hun] at h
              obtain ⟨h1, h2, h3⟩ := h
              rcases readField_inv r2 [] urlBytes (2 :: r4) hf1 with
                ⟨u, hu1, hu2, hu3⟩ | ⟨-, hnil, -⟩
              swap
              · simp at hnil
              rcases readField_inv r4 [] packedMetadata (23 :: r6) hf2 with
                ⟨m, hm1, hm2, hm3⟩ | ⟨-, hnil, -⟩
              swap
              · simp at hnil
              simp only [List.nil_append] at hu3 hm3
              subst hu3 hm3
              have hsplit : a :: tl = (a :: tl).take 8 ++ (a :: tl).drop 8 :=
                (List.take_append_drop 8 (a :: tl)).symm
              have hlen : 8 < (a :: tl).length := by
                have hl : ((a :: tl).drop 8).length = (23 :: 2 :: r2).length := by rw [hd]
                simp only [List.length_drop, List.length_cons] at hl
                simp only [List.length_cons]
                omega
              refine ⟨(a :: tl).take 8, urlBytes, packedMetadata, r6, ?_, ?_, hu2, hm2, h1.symm,
                ?_, h3.symm⟩
              · rw [← hm1, ← hu1, ← hd]
                exact hsplit
              · simp only [List.length_take]
                omega
              · rw [hun, h2]

/-- C15. Decoder soundness: every buffer on which `parseOperand` succeeds has
the form `k ++ [0x17, 0x02] ++ u ++ [0x03, 0x02] ++ m ++ [0x03, 0x17] ++ rest`
with `k` of exactly 8 bytes and `u`, `m` free of 0x03; the url returned is `u`
and the metadata returned is the codec's decoding of `m`.  A buffer that is
not of this form is rejected with an error. -/
theorem parseOperand_sound {M : Type} (lib : Lib M) (operand : List Byte) :
    (∀ (url : GoString) (metadata : M) (tokens : List GoString),
        parseOperand lib operand = .ok (url, metadata, tokens) →
        ∃ k u m rest : List Byte,
          operand = k ++ [0x17, 0x02] ++ u ++ [0x03, 0x02] ++ m ++ [0x03, 0x17] ++ rest ∧
          k.length = 8 ∧ 0x03 ∉ u ∧ 0x03 ∉ m ∧ url = u ∧ lib.Unmarshal m = .ok metadata) ∧
      ((¬ ∃ k u m rest : List Byte,
          operand = k ++ [0x17, 0x02] ++ u ++ [0x03, 0x02] ++ m ++ [0x03, 0x17] ++ rest ∧
          k.length = 8 ∧ 0x03 ∉ u ∧ 0x03 ∉ m) →
        ∃ err, parseOperand lib operand = .error err) := by
  have hform : ∀ (url : GoString) (metadata : M) (tokens : List GoString),
      parseOperand lib operand = .ok (url, metadata, tokens) →
      ∃ k u m rest : List Byte,
        operand = k ++ [0x17, 0x02] ++ u ++ [0x03, 0x02] ++ m ++ [0x03, 0x17] ++ rest ∧
        k.length = 8 ∧ 0x03 ∉ u ∧ 0x03 ∉ m ∧ url = u ∧ lib.Unmarshal m = .ok metadata := by
    intro url metadata tokens h
    obtain ⟨k, u, m, rest, hop, hk, hu, hm, hurl, hdec, -⟩ :=
      parseOperand_inv lib operand url metadata tokens h
    exact ⟨k, u, m, rest, by simp [hop], hk, hu, hm, hurl, hdec⟩
  refine ⟨hform, ?_⟩
  intro hnot
  cases hres : parseOperand lib operand with
  | error err => exact ⟨err, rfl⟩
  | ok r =>
    obtain ⟨url, metadata, tokens⟩ := r
    obtain ⟨k, u, m, rest, hop, hk, hu, hm, -, -⟩ := hform url metadata tokens hres
    exact absurd ⟨k, u, m, rest, hop, hk, hu, hm⟩ hnot

/-- C15, evaluated: an accepted frame with one token has the form, and a
buffer of three bytes, which has not, is rejected. -/
theorem parseOperand_sound_witness :
    (∃ k u m rest : List Byte,
        [1, 2, 3, 4, 5, 6, 7, 8, 0x17, 0x02, 0x61, 0x03, 0x02, 0x80, 0x03, 0x17, 0x74, 0x03, 0x17]
          = k ++ [0x17, 0x02] ++ u ++ [0x03, 0x02] ++ m ++ [0x03, 0x17] ++ rest ∧
        k.length = 8 ∧ 0x03 ∉ u ∧ 0x03 ∉ m ∧ [0x61] = u ∧ sampleLib.Unmarshal m = .ok []) ∧
      ∃ err, parseOperand sampleLib [1, 2, 3] = .error err :=
  ⟨(parseOperand_sound sampleLib
      [1, 2, 3, 4, 5, 6, 7, 8, 0x17, 0x02, 0x61, 0x03, 0x02, 0x80, 0x03, 0x17, 0x74, 0x03, 0x17]).1
      [0x61] [] [[0x74]] rfl,
   (parseOperand_sound sampleLib [1, 2, 3]).2 (by
      rintro ⟨k, u, m, rest, h, hk, -, -⟩
      have hlen := congrArg List.length h
      simp only [List.length_append, List.length_cons, List.length_nil] at hlen
      omega)⟩

/-! ## Tolerances of the token loop -/

/-- A token block without its closing 0x17, written from tokens that contain no
byte 3 and do not begin with the byte 23, is read back as these tokens. -/
theorem readTokens_block_eof (toks : List GoString)
    (htoks : ∀ t ∈ toks, 3 ∉ t ∧ t.head? ≠ some 23) (tokens : List GoString) :
    readTokens tokens ((toks.map (fun token => token ++ [3])).flatten) = tokens ++ toks := by
  induction toks generalizing tokens with
  | nil => simp [readTokens]
  | cons t toks ih =>
    have h1 := htoks t (by simp)
    have h2 : ∀ t ∈ toks, 3 ∉ t ∧ t.head? ≠ some 23 := fun x hx => htoks x (by simp [hx])
    have hshape : ((t :: toks).map (fun token => token ++ [3])).flatten
        = t ++ 3 :: (toks.map (fun token => token ++ [3])).flatten := by
      simp
    rw [hshape, readTokens_token t h1.1 h1.2, ih h2]
    simp

/-- Tokens free of the bytes 0x02, 0x03 and 0x17 contain no byte 3 and do not
begin with the byte 23. -/
theorem clean_tokens (tokens : List GoString)
    (htokens : ∀ t ∈ tokens, ∀ b ∈ t, b ≠ 0x02 ∧ b ≠ 0x03 ∧ b ≠ 0x17) :
    ∀ t ∈ tokens, 3 ∉ t ∧ t.head? ≠ some 23 := by
  intro t htm
  refine ⟨fun h => (htokens t htm 3 h).2.1 rfl, fun h => ?_⟩
  have hmem : 23 ∈ t := by
    cases t with
    | nil => simp at h
    | cons b t => simp at h; simp [h]
  exact (htokens t htm 23 hmem).2.2 rfl

/-- C16. Missing final ETB is tolerated: under the round-trip precondition (no
0x02, 0x03 or 0x17 in the url, the packed metadata or any token; the codec
decodes the packed metadata back), `parseOperand` applied to the output of
`generateOperand` without its last byte, the closing 0x17, succeeds and returns
the same url, metadata and tokens as on the full output. -/
theorem parseOperand_without_final_ETB {M : Type} (lib : Lib M) (url : GoString)
    (tokens : List GoString) (metadatas : M) (packed : List Byte)
    (hpack : lib.Marshal metadatas = .ok packed)
    (hunpack : lib.Unmarshal packed = .ok metadatas)
    (hurl : ∀ b ∈ url, b ≠ 0x02 ∧ b ≠ 0x03 ∧ b ≠ 0x17)
    (hmeta : ∀ b ∈ packed, b ≠ 0x02 ∧ b ≠ 0x03 ∧ b ≠ 0x17)
    (htokens : ∀ t ∈ tokens, ∀ b ∈ t, b ≠ 0x02 ∧ b ≠ 0x03 ∧ b ≠ 0x17) :
    ∃ out, generateOperand lib url tokens metadatas = .ok out ∧
      out.getLast? = some 0x17 ∧
      parseOperand lib out.dropLast = .ok (url, metadatas, tokens) ∧
      parseOperand lib out.dropLast = parseOperand lib out := by
  have hu : 3 ∉ url := fun h => (hurl 3 h).2.1 rfl
  have hm : 3 ∉ packed := fun h => (hmeta 3 h).2.1 rfl
  have ht := clean_tokens tokens htokens
  have hfull : parseOperand lib (PutUint64 (lib.Sum64String url % 2 ^ 64) ++ 23 :: 2 ::
      (url ++ 3 :: 2 :: (packed ++ 3 :: 23 ::
        ((tokens.map (fun token => token ++ [3])).flatten ++ [23]))))
      = .ok (url, metadatas, tokens) := by
    rw [parseOperand_fields lib _ url packed _ metadatas (PutUint64_length _) hu hm hunpack]
    have hblock := readTokens_block tokens ht [] []
    simp only [List.nil_append] at hblock
    rw [hblock]
  have hshape : PutUint64 (lib.Sum64String url % 2 ^ 64) ++ 23 :: 2 ::
      (url ++ 3 :: 2 :: (packed ++ 3 :: 23 ::
        ((tokens.map (fun token => token ++ [3])).flatten ++ [23])))
      = (PutUint64 (lib.Sum64String url % 2 ^ 64) ++ 23 :: 2 ::
      (url ++ 3 :: 2 :: (packed ++ 3 :: 23 ::
        (tokens.map (fun token => token ++ [3])).flatten))) ++ [23] := by
    simp
  have hcut : parseOperand lib (PutUint64 (lib.Sum64String url % 2 ^ 64) ++ 23 :: 2 ::
      (url ++ 3 :: 2 :: (packed ++ 3 :: 23 ::
        (tokens.map (fun token => token ++ [3])).flatten)))
      = .ok (url, metadatas, tokens) := by
    rw [parseOperand_fields lib _ url packed _ metadatas (PutUint64_length _) hu hm hunpack]
    have hblock := readTokens_block_eof tokens ht []
    simp only [List.nil_append] at hblock
    rw [hblock]
  refine ⟨_, generateOperand_ok lib url tokens metadatas packed hpack, ?_, ?_, ?_⟩
  · rw [hshape]; exact List.getLast?_concat _
  · rw [hshape, List.dropLast_concat]; exact hcut
  · rw [hfull, hshape, List.dropLast_concat]; exact hcut

/-- C16, evaluated: a url, three tokens (one empty) and a one-entry map. -/
theorem parseOperand_without_final_ETB_witness :
    ∃ out, generateOperand sampleLib [0x61] [[0x74], [], [0x75, 0x76]] [([0x6b], [0x76])] = .ok out ∧
      out.getLast? = some 0x17 ∧
      parseOperand sampleLib out.dropLast
        = .ok ([0x61], [([0x6b], [0x76])], [[0x74], [], [0x75, 0x76]]) ∧
      parseOperand sampleLib out.dropLast = parseOperand sampleLib out :=
  parseOperand_without_final_ETB sampleLib [0x61] [[0x74], [], [0x75, 0x76]] [([0x6b], [0x76])]
    [0x81, 0xa1, 0x6b, 0xa1, 0x76] rfl rfl (by decide) (by decide) (by decide)

/-! ## The exact round-trip condition -/

/-- No token the token loops collect begins with the byte 23: at the start of
a token the byte 23 ends the loop. -/
theorem readTokens_no_ETB_head (buf : List Byte) :
    (∀ tokens : List GoString, (∀ t ∈ tokens, t.head? ≠ some 23) →
      ∀ t ∈ readTokens tokens buf, t.head? ≠ some 23) ∧
    (∀ (tokens : List GoString) (tokenBytes : List Byte), (∀ t ∈ tokens, t.head? ≠ some 23) →
      tokenBytes ≠ [] → tokenBytes.head? ≠ some 23 →
      ∀ t ∈ readTokenBytes tokens tokenBytes buf, t.head? ≠ some 23) := by
  have hsnoc : ∀ (tokens : List GoString) (x : List Byte), (∀ t ∈ tokens, t.head? ≠ some 23) →
      x.head? ≠ some 23 → ∀ t ∈ tokens ++ [x], t.head? ≠ some 23 := by
    intro tokens x h hx t ht
    simp only [List.mem_append, List.mem_singleton] at ht
    rcases ht with ht | rfl
    · exact h t ht
    · exact hx
  induction buf with
  | nil =>
    constructor
    · intro tokens h t ht
      simp only [readTokens] at ht
      exact h t ht
    · intro tokens tokenBytes h _ hb t ht
      simp only [readTokenBytes] at ht
      exact hsnoc tokens tokenBytes h hb t ht
  | cons b rest ih =>
    constructor
    · intro tokens h t ht
      simp only [readTokens] at ht
      by_cases h23 : b = 23
      · simp only [h23, if_true] at ht
        exact h t ht
      · by_cases h3 : b = 3
        · simp only [h3, if_true] at ht
          exact ih.1 _ (hsnoc tokens [] h (by simp)) t (by simpa using ht)
        · simp only [h23, h3, if_false] at ht
          exact ih.2 tokens [b] h (by simp) (by simpa using h23) t ht
    · intro tokens tokenBytes h hne hb t ht
      simp only [readTokenBytes] at ht
      by_cases h3 : b = 3
      · simp only [h3, if_true] at ht
        exact ih.1 _ (hsnoc tokens tokenBytes h hb) t ht
      · simp only [h3, if_false] at ht
        refine ih.2 tokens (tokenBytes ++ [b]) h (by simp) ?_ t ht
        cases tokenBytes with
        | nil => exact absurd rfl hne
        | cons c cs => simpa using hb

/-- A token block in which a token begins with the byte 23, the tokens before
it containing no byte 3 and not beginning with 23, is read back as the tokens
before it: the loop ends at that byte. -/
theorem readTokens_cut (before after : List GoString) (t : GoString)
    (hbefore : ∀ x ∈ before, 3 ∉ x ∧ x.head? ≠ some 23) (ht : t.head? = some 23)
    (extra : List Byte) :
    readTokens [] (((before ++ t :: after).map (fun token => token ++ [3])).flatten ++ extra)
      = before := by
  cases t with
  | nil => simp at ht
  | cons b t2 =>
    have hb : b = 23 := by simpa using ht
    subst hb
    have hshape : (((before ++ (23 :: t2) :: after).map (fun token => token ++ [3])).flatten
        ++ extra)
        = (before.map (fun token => token ++ [3])).flatten
          ++ 23 :: (t2 ++ 3 :: ((after.map (fun token => token ++ [3])).flatten ++ extra)) := by
      simp
    rw [hshape, readTokens_block before hbefore [] _]
    simp

/-- C17, refuted as stated: of the two tokens `03 03` and `17`, the second
begins with 0x17, and decoding succeeds with three tokens, a list that is not
shorter than the one encoded. -/
theorem leading_ETB_after_ETX_example :
    generateOperand sampleLib [] [[0x03, 0x03], [0x17]] []
        = .ok [0x99, 0xe9, 0xd8, 0x51, 0x37, 0xdb, 0x46, 0xef, 0x17, 0x02, 0x03, 0x02, 0x80,
            0x03, 0x17, 0x03, 0x03, 0x03, 0x17, 0x03, 0x17] ∧
      parseOperand sampleLib [0x99, 0xe9, 0xd8, 0x51, 0x37, 0xdb, 0x46, 0xef, 0x17, 0x02, 0x03,
            0x02, 0x80, 0x03, 0x17, 0x03, 0x03, 0x03, 0x17, 0x03, 0x17]
        = .ok ([], [], [[], [], []]) ∧
      ¬ ([[], [], []] : List GoString).length < ([[0x03, 0x03], [0x17]] : List GoString).length :=
  ⟨rfl, rfl, by decide⟩

/-- C17, amended. When the url and the packed metadata contain no byte 0x03
(0x02 and 0x17 are allowed) and the codec decodes the packed metadata back,
decoding the output of `generateOperand` returns exactly the url, the metadata
and the tokens if and only if no token contains the byte 0x03 and no token
begins with the byte 0x17; so tokens containing 0x02, or 0x17 after their
first byte, still round-trip.  A token beginning with 0x17 makes decoding
succeed with another token list; when no token before it contains 0x03 or
begins with 0x17, that list is shorter: it is the tokens before it. -/
theorem roundtrip_iff_tokens_clean {M : Type} (lib : Lib M) (url : GoString)
    (tokens : List GoString) (metadatas : M) (packed : List Byte)
    (hpack : lib.Marshal metadatas = .ok packed)
    (hunpack : lib.Unmarshal packed = .ok metadatas)
    (hurl : 0x03 ∉ url) (hmeta : 0x03 ∉ packed) :
    ∃ out, generateOperand lib url tokens metadatas = .ok out ∧
      (parseOperand lib out = .ok (url, metadatas, tokens) ↔
        (∀ t ∈ tokens, 0x03 ∉ t) ∧ (∀ t ∈ tokens, t.head? ≠ some 0x17)) ∧
      ((∃ t ∈ tokens, t.head? = some 0x17) →
        ∃ toks, parseOperand lib out = .ok (url, metadatas, toks) ∧ toks ≠ tokens) ∧
      (∀ (before : List GoString) (t : GoString) (after : List GoString),
        tokens = before ++ t :: after → t.head? = some 0x17 →
        (∀ x ∈ before, 0x03 ∉ x ∧ x.head? ≠ some 0x17) →
        parseOperand lib out = .ok (url, metadatas, before) ∧
          before.length < tokens.length) := by
  have hparse := parseOperand_fields lib (PutUint64 (lib.Sum64String url % 2 ^ 64)) url packed
    ((tokens.map (fun token => token ++ [3])).flatten ++ [23]) metadatas
    (PutUint64_length _) hurl hmeta hunpack
  have hiff : parseOperand lib (PutUint64 (lib.Sum64String url % 2 ^ 64) ++ 23 :: 2 ::
      (url ++ 3 :: 2 :: (packed ++ 3 :: 23 ::
        ((tokens.map (fun token => token ++ [3])).flatten ++ [23]))))
        = .ok (url, metadatas, tokens) ↔
      (∀ t ∈ tokens, 0x03 ∉ t) ∧ (∀ t ∈ tokens, t.head? ≠ some 0x17) := by
    rw [hparse]
    constructor
    · intro h
      have htoks : readTokens [] ((tokens.map (fun token => token ++ [3])).flatten ++ [23])
          = tokens := by
        simpa using h
      constructor
      · intro t ht
        exact (readTokens_no_ETX _).1 [] (by simp) t (by rw [htoks]; exact ht)
      · intro t ht
        exact (readTokens_no_ETB_head _).1 [] (by simp) t (by rw [htoks]; exact ht)
    · rintro ⟨h3, h23⟩
      have hblock := readTokens_block tokens (fun t ht => ⟨h3 t ht, h23 t ht⟩) [] []
      simp only [List.nil_append] at hblock
      rw [hblock]
  refine ⟨_, generateOperand_ok lib url tokens metadatas packed hpack, hiff, ?_, ?_⟩
  · rintro ⟨t, ht, hhead⟩
    refine ⟨_, hparse, ?_⟩
    intro heq
    have hclean := hiff.1 (by rw [hparse, heq])
    exact hclean.2 t ht hhead
  · intro before t after hsplit ht hbefore
    have hcut := readTokens_cut before after t hbefore ht [23]
    rw [← hsplit] at hcut
    refine ⟨by rw [hparse, hcut], ?_⟩
    rw [hsplit]
    simp

/-- C17 amended, evaluated.  The tokens `02 74` and `74 17 17` round-trip; of
the tokens `74`, `17 75`, `76` only the first is decoded. -/
theorem roundtrip_iff_tokens_clean_witness :
    parseOperand sampleLib
        (returnedBytes (generateOperand sampleLib [0x61] [[0x02, 0x74], [0x74, 0x17, 0x17]] []))
        = .ok ([0x61], [], [[0x02, 0x74], [0x74, 0x17, 0x17]]) ∧
      parseOperand sampleLib
          (returnedBytes (generateOperand sampleLib [0x61] [[0x74], [0x17, 0x75], [0x76]] []))
        = .ok ([0x61], [], [[0x74]]) ∧
      ([[0x74]] : List GoString).length
        < ([[0x74], [0x17, 0x75], [0x76]] : List GoString).length := by
  obtain ⟨out, hgen, hiff, -, -⟩ := roundtrip_iff_tokens_clean sampleLib [0x61]
    [[0x02, 0x74], [0x74, 0x17, 0x17]] [] [0x80] rfl rfl (by decide) (by decide)
  obtain ⟨out2, hgen2, -, -, hshort⟩ := roundtrip_iff_tokens_clean sampleLib [0x61]
    [[0x74], [0x17, 0x75], [0x76]] [] [0x80] rfl rfl (by decide) (by decide)
  rw [hgen, hgen2]
  exact ⟨hiff.2 (by decide), hshort [[0x74]] [0x17, 0x75] [[0x76]] rfl rfl (by decide)⟩

/-! ## Trailing bytes and the key -/

/-- C18. Trailing bytes are ignored: under the round-trip precondition,
`parseOperand` applied to the output of `generateOperand` followed by any
bytes succeeds and returns the url, the metadata and the tokens, as it does
without them; nothing after the 0x17 that closes the token block is read. -/
theorem parseOperand_ignores_trailing {M : Type} (lib : Lib M) (url : GoString)
    (tokens : List GoString) (metadatas : M) (packed extra : List Byte)
    (hpack : lib.Marshal metadatas = .ok packed)
    (hunpack : lib.Unmarshal packed = .ok metadatas)
    (hurl : ∀ b ∈ url, b ≠ 0x02 ∧ b ≠ 0x03 ∧ b ≠ 0x17)
    (hmeta : ∀ b ∈ packed, b ≠ 0x02 ∧ b ≠ 0x03 ∧ b ≠ 0x17)
    (htokens : ∀ t ∈ tokens, ∀ b ∈ t, b ≠ 0x02 ∧ b ≠ 0x03 ∧ b ≠ 0x17) :
    ∃ out, generateOperand lib url tokens metadatas = .ok out ∧
      parseOperand lib (out ++ extra) = .ok (url, metadatas, tokens) ∧
      parseOperand lib (out ++ extra) = parseOperand lib out := by
  have hu : 3 ∉ url := fun h => (hurl 3 h).2.1 rfl
  have hm : 3 ∉ packed := fun h => (hmeta 3 h).2.1 rfl
  have ht := clean_tokens tokens htokens
  have hany : ∀ tail : List Byte,
      parseOperand lib (PutUint64 (lib.Sum64String url % 2 ^ 64) ++ 23 :: 2 ::
        (url ++ 3 :: 2 :: (packed ++ 3 :: 23 ::
          ((tokens.map (fun token => token ++ [3])).flatten ++ 23 :: tail))))
        = .ok (url, metadatas, tokens) := by
    intro tail
    rw [parseOperand_fields lib _ url packed _ metadatas (PutUint64_length _) hu hm hunpack]
    have hblock := readTokens_block tokens ht [] tail
    simp only [List.nil_append] at hblock
    rw [hblock]
  have hshape : (PutUint64 (lib.Sum64String url % 2 ^ 64) ++ 23 :: 2 ::
        (url ++ 3 :: 2 :: (packed ++ 3 :: 23 ::
          ((tokens.map (fun token => token ++ [3])).flatten ++ [23])))) ++ extra
      = PutUint64 (lib.Sum64String url % 2 ^ 64) ++ 23 :: 2 ::
        (url ++ 3 :: 2 :: (packed ++ 3 :: 23 ::
          ((tokens.map (fun token => token ++ [3])).flatten ++ 23 :: extra))) := by
    simp
  refine ⟨_, generateOperand_ok lib url tokens metadatas packed hpack, ?_, ?_⟩
  · rw [hshape]; exact hany extra
  · rw [hshape, hany extra]; exact (hany []).symm

/-- C18, evaluated: a frame followed by three bytes that are no frame. -/
theorem parseOperand_ignores_trailing_witness :
    ∃ out, generateOperand sampleLib [0x61] [[0x74], [], [0x75, 0x76]] [([0x6b], [0x76])] = .ok out ∧
      parseOperand sampleLib (out ++ [0x03, 0xff, 0x17])
        = .ok ([0x61], [([0x6b], [0x76])], [[0x74], [], [0x75, 0x76]]) ∧
      parseOperand sampleLib (out ++ [0x03, 0xff, 0x17]) = parseOperand sampleLib out :=
  parseOperand_ignores_trailing sampleLib [0x61] [[0x74], [], [0x75, 0x76]] [([0x6b], [0x76])]
    [0x81, 0xa1, 0x6b, 0xa1, 0x76] [0x03, 0xff, 0x17] rfl rfl (by decide) (by decide) (by decide)

/-- C19. The key is not validated: for any two sequences of 8 bytes followed
by the same bytes, `parseOperand` returns the same result, the same url,
metadata and tokens or the same error; so the output of `generateOperand`
with its key replaced by any 8 bytes is parsed as the output itself. -/
theorem parseOperand_ignores_key {M : Type} (lib : Lib M) (k1 k2 rest : List Byte)
    (hk1 : k1.length = 8) (hk2 : k2.length = 8) :
    parseOperand lib (k1 ++ rest) = parseOperand lib (k2 ++ rest) ∧
      ∀ (url : GoString) (tokens : List GoString) (metadatas : M) (out : List Byte),
        generateOperand lib url tokens metadatas = .ok out →
        parseOperand lib (k1 ++ out.drop 8) = parseOperand lib out := by
  have hsame : ∀ (a b tail : List Byte), a.length = 8 → b.length = 8 →
      parseOperand lib (a ++ tail) = parseOperand lib (b ++ tail) := by
    intro a b tail ha hb
    simp only [parseOperand, bufferRead_key a tail ha, bufferRead_key b tail hb]
  refine ⟨hsame k1 k2 rest hk1 hk2, ?_⟩
  intro url tokens metadatas out hout
  obtain ⟨packed, -, rfl⟩ := generateOperand_inv lib url tokens metadatas out hout
  rw [List.drop_left' (PutUint64_length _)]
  exact hsame _ _ _ hk1 (PutUint64_length _)

/-- C19, evaluated: the frame of the url `a` is accepted under the key of
eight zero bytes, which is not the hash of `a`, and an ill-formed remainder
fails the same way under both keys. -/
theorem parseOperand_ignores_key_witness :
    parseOperand sampleLib ([0, 0, 0, 0, 0, 0, 0, 0] ++ [0x17, 0x02, 0x61, 0x03, 0x02, 0x80, 0x03,
        0x17, 0x74, 0x03, 0x17])
      = parseOperand sampleLib ([0x5b, 0x6e, 0x8c, 0xa9, 0xf1, 0xc4, 0x4e, 0xd2] ++ [0x17, 0x02,
        0x61, 0x03, 0x02, 0x80, 0x03, 0x17, 0x74, 0x03, 0x17]) ∧
    parseOperand sampleLib ([0, 0, 0, 0, 0, 0, 0, 0] ++ [0x17, 0x02, 0x61, 0x03, 0x02, 0x80, 0x03,
        0x17, 0x74, 0x03, 0x17]) = .ok ([0x61], [], [[0x74]]) ∧
    PutUint64 (sampleLib.Sum64String [0x61] % 2 ^ 64) ≠ [0, 0, 0, 0, 0, 0, 0, 0] ∧
    parseOperand sampleLib ([0, 0, 0, 0, 0, 0, 0, 0] ++ [0x17, 0x03])
      = parseOperand sampleLib ([1, 2, 3, 4, 5, 6, 7, 8] ++ [0x17, 0x03]) :=
  ⟨(parseOperand_ignores_key sampleLib [0, 0, 0, 0, 0, 0, 0, 0]
      [0x5b, 0x6e, 0x8c, 0xa9, 0xf1, 0xc4, 0x4e, 0xd2] _ rfl rfl).1,
   rfl, by decide,
   (parseOperand_ignores_key sampleLib [0, 0, 0, 0, 0, 0, 0, 0] [1, 2, 3, 4, 5, 6, 7, 8]
      [0x17, 0x03] rfl rfl).1⟩

/-! ## What the decoder returns -/

/-- C20. Output invariant of the decoder: on every buffer on which
`parseOperand` succeeds, no returned token contains the byte 0x03, no returned
token begins with the byte 0x17, and the returned url contains no byte 0x03. -/
theorem parseOperand_output_invariant {M : Type} (lib : Lib M) (operand : List Byte)
    (url : GoString) (metadata : M) (tokens : List GoString)
    (h : parseOperand lib operand = .ok (url, metadata, tokens)) :
    (∀ t ∈ tokens, 0x03 ∉ t) ∧ (∀ t ∈ tokens, t.head? ≠ some 0x17) ∧ 0x03 ∉ url := by
  obtain ⟨k, u, m, rest, -, -, hu, -, hurl, -, htok⟩ :=
    parseOperand_inv lib operand url metadata tokens h
  subst hurl htok
  exact ⟨(readTokens_no_ETX rest).1 [] (by simp), (readTokens_no_ETB_head rest).1 [] (by simp), hu⟩

/-- C20, evaluated on a buffer whose token block holds 0x03 twice in a row, a
0x17 inside a token and bytes after the closing 0x17. -/
theorem parseOperand_output_invariant_witness :
    parseOperand sampleLib [1, 2, 3, 4, 5, 6, 7, 8, 0x17, 0x02, 0x61, 0x03, 0x02, 0x80, 0x03, 0x17,
        0x74, 0x17, 0x03, 0x03, 0x17, 0x75, 0x03]
      = .ok ([0x61], [], [[0x74, 0x17], []]) ∧
    (∀ t ∈ ([[0x74, 0x17], []] : List GoString), 0x03 ∉ t) ∧
    (∀ t ∈ ([[0x74, 0x17], []] : List GoString), t.head? ≠ some 0x17) ∧
    0x03 ∉ ([0x61] : GoString) :=
  ⟨rfl, parseOperand_output_invariant sampleLib
    [1, 2, 3, 4, 5, 6, 7, 8, 0x17, 0x02, 0x61, 0x03, 0x02, 0x80, 0x03, 0x17,
      0x74, 0x17, 0x03, 0x03, 0x17, 0x75, 0x03] [0x61] [] [[0x74, 0x17], []] rfl⟩

end Fdb
